import Mathlib

/-!
Verification of the DnD Companion server against its specification.

This file gives a shallow embedding, in Lean 4, of the parts of the
TypeScript server that the specification talks about:

* `AudioTriggerService` (src/server/src/services/audioTrigger.ts)
* the transcript merge pass `mergeConsecutiveSegments`
  (src/server/src/websocket/index.ts)
* the AI correction sanity check `correctTranscriptWithAI`
  (src/server/src/services/ai.ts)
* the `health:confirm` websocket handler (src/server/src/websocket/index.ts)
* the multi-speaker utterance splitter `splitBySpeaker`
  (src/server/src/services/transcription.ts)
* the auto-audio scene/effect rate limiting
  (src/server/src/services/aiAudioAnalyzer.ts and autoAudioService.ts)

Pure functions of the source become Lean functions; stateful methods become
functions from an explicit state record to (emitted events × new state).
External effects (the regular-expression engine, the OpenAI responses,
`Math.random`, the audio search APIs) are passed in as explicit oracle
arguments, so every theorem is quantified over their behaviour.
-/

/-! ## Audio Trigger Engine (audioTrigger.ts) -/

inductive TriggerAction where
  | play
  | stop
  | crossfade
deriving DecidableEq, Repr

inductive TriggerKind where
  | keyword
  | scene
  | manual
deriving DecidableEq, Repr

structure SoundMapping where
  id : String
  triggerType : TriggerKind
  triggerValue : String
deriving DecidableEq, Repr

structure AudioTriggerEvent where
  mappingId : String
  action : TriggerAction
deriving DecidableEq, Repr

/-- State of an `AudioTriggerService` instance: its mapping list and the
`currentlyPlaying` field (`null` modelled as `none`). -/
structure ATState where
  soundMappings : List SoundMapping
  currentlyPlaying : Option String
deriving DecidableEq, Repr

/-- Embeds the private method `triggerSound(mappingId, action)` of
audioTrigger.ts lines 91-104: looks the mapping up by id, downgrades the
requested action to `crossfade` whenever `currentlyPlaying` is non-null, emits
one event and records the mapping as currently playing. -/
def AudioTriggerService.triggerSound (st : ATState) (mappingId : String)
    (action : TriggerAction) : List AudioTriggerEvent × ATState :=
  match st.soundMappings.find? (fun m => m.id == mappingId) with
  | none => ([], st)
  | some _ =>
    let finalAction :=
      if st.currentlyPlaying.isSome then TriggerAction.crossfade else action
    ([⟨mappingId, finalAction⟩], { st with currentlyPlaying := some mappingId })

/-- Embeds `checkKeywordTriggers(text)` (audioTrigger.ts lines 43-53): the
first keyword mapping whose pattern tests true fires `triggerSound` with the
default action `play`, then the loop breaks.  The regular-expression test is
the oracle `rxTest`. -/
def AudioTriggerService.checkKeywordTriggers
    (rxTest : SoundMapping → String → Bool) (st : ATState) (text : String) :
    List AudioTriggerEvent × ATState :=
  match st.soundMappings.find?
      (fun m => m.triggerType == TriggerKind.keyword && rxTest m text) with
  | some m => AudioTriggerService.triggerSound st m.id TriggerAction.play
  | none => ([], st)

/-- Embeds `handleSceneChange(scene, confidence)` (audioTrigger.ts lines
58-69): detections with confidence below 0.6 are ignored; otherwise the first
mapping with trigger type `scene` and matching trigger value fires with action
`crossfade`, provided its id differs from `currentlyPlaying`. -/
def AudioTriggerService.handleSceneChange (st : ATState) (scene : String)
    (confidence : ℚ) : List AudioTriggerEvent × ATState :=
  if confidence < mkRat 6 10 then ([], st)
  else
    match st.soundMappings.find?
        (fun m => m.triggerType == TriggerKind.scene && m.triggerValue == scene) with
    | some m =>
      if st.currentlyPlaying == some m.id then ([], st)
      else AudioTriggerService.triggerSound st m.id TriggerAction.crossfade
    | none => ([], st)

/-- Embeds `manualTrigger(mappingId)` (audioTrigger.ts lines 74-76).  This
engine method routes through `triggerSound` and would downgrade to
`crossfade` while audio is playing — but the server never calls it: the
actual manual-trigger path is the `audio:manual-trigger` websocket handler
modelled below. -/
def AudioTriggerService.manualTrigger (st : ATState) (mappingId : String) :
    List AudioTriggerEvent × ATState :=
  AudioTriggerService.triggerSound st mappingId TriggerAction.play

/-- Payload of the `audio:trigger` emission of the `audio:manual-trigger`
handler, which also sets the `manual` flag (websocket/index.ts lines
472-476). -/
structure ManualTriggerEmission where
  mappingId : String
  action : TriggerAction
  manual : Bool
deriving DecidableEq, Repr

/-- Embeds the `audio:manual-trigger` websocket handler (websocket/index.ts
lines 470-477), the only manual-trigger path the server executes: it emits
`{ mappingId, action: 'play', manual: true }` unconditionally.  It takes no
state: it never consults the `AudioTriggerService`, so neither
`currentlyPlaying` nor any other engine state can influence the emitted
action. -/
def audioManualTriggerHandler (mappingId : String) : ManualTriggerEmission :=
  ⟨mappingId, TriggerAction.play, true⟩

theorem triggerSound_busy_crossfade (st : ATState) (mid : String)
    (a : TriggerAction) (p : String) (hp : st.currentlyPlaying = some p) :
    ∀ ev ∈ (AudioTriggerService.triggerSound st mid a).1,
      ev.action = TriggerAction.crossfade := by
  intro ev hev
  unfold AudioTriggerService.triggerSound at hev
  cases hfind : st.soundMappings.find? (fun m => m.id == mid) with
  | none => simp [hfind] at hev
  | some m =>
    simp only [hfind, hp, Option.isSome_some, if_pos] at hev
    simp only [List.mem_singleton] at hev
    subst hev
    rfl

def c1State : ATState :=
  ⟨[⟨"m1", TriggerKind.manual, ""⟩], some "m0"⟩

/-- C1 counterexample: with the engine busy (`currentlyPlaying` is the
non-null `"m0"`), a manual trigger — fired through the `audio:manual-trigger`
handler, the server's only manual-trigger path — still emits action `play`,
not `crossfade`: the handler bypasses the engine entirely (it takes no engine
state at all), so the requested action is never overridden on this path. -/
theorem manual_trigger_emits_play_while_busy :
    c1State.currentlyPlaying = some "m0" ∧
      (audioManualTriggerHandler "m1").action = TriggerAction.play ∧
      ¬ (audioManualTriggerHandler "m1").action = TriggerAction.crossfade ∧
      (audioManualTriggerHandler "m1").manual = true := by
  decide

/-- C1 amended: for the engine entry points the server actually invokes —
keyword match and scene change, both routed through `triggerSound` — every
event emitted while `currentlyPlaying` is non-null carries action
`crossfade`, never `play`, and the unused engine method `manualTrigger` would
behave the same; but the live manual-trigger path (the
`audio:manual-trigger` handler) bypasses the engine and always emits action
`play`, even while audio is playing. -/
theorem audioTrigger_busy_always_crossfade
    (rxTest : SoundMapping → String → Bool) (st : ATState)
    (text scene : String) (conf : ℚ) (mid hmid : String) (p : String)
    (hp : st.currentlyPlaying = some p) :
    (∀ ev ∈ (AudioTriggerService.checkKeywordTriggers rxTest st text).1,
      ev.action = TriggerAction.crossfade) ∧
    (∀ ev ∈ (AudioTriggerService.handleSceneChange st scene conf).1,
      ev.action = TriggerAction.crossfade) ∧
    (∀ ev ∈ (AudioTriggerService.manualTrigger st mid).1,
      ev.action = TriggerAction.crossfade) ∧
    (audioManualTriggerHandler hmid).action = TriggerAction.play := by
  refine ⟨?_, ?_, ?_, rfl⟩
  · intro ev hev
    unfold AudioTriggerService.checkKeywordTriggers at hev
    cases hfind : st.soundMappings.find?
        (fun m => m.triggerType == TriggerKind.keyword && rxTest m text) with
    | none => simp [hfind] at hev
    | some m =>
      rw [hfind] at hev
      exact triggerSound_busy_crossfade st m.id TriggerAction.play p hp ev hev
  · intro ev hev
    unfold AudioTriggerService.handleSceneChange at hev
    split at hev
    · simp at hev
    · split at hev
      · split at hev
        · simp at hev
        · exact triggerSound_busy_crossfade st _ _ p hp ev hev
      · simp at hev
  · intro ev hev
    exact triggerSound_busy_crossfade st mid TriggerAction.play p hp ev hev

theorem audioTrigger_busy_always_crossfade_witness :
    c1State.currentlyPlaying = some "m0" ∧
      ((⟨"m1", TriggerAction.crossfade⟩ : AudioTriggerEvent).action =
          TriggerAction.crossfade ∧
        (audioManualTriggerHandler "m1").action = TriggerAction.play) :=
  ⟨rfl,
    (audioTrigger_busy_always_crossfade (fun _ _ => true) c1State
      "" "" (mkRat 9 10) "m1" "m1" "m0" rfl).2.2.1
      ⟨"m1", TriggerAction.crossfade⟩
      (by simp [AudioTriggerService.manualTrigger,
        AudioTriggerService.triggerSound, c1State]),
    (audioTrigger_busy_always_crossfade (fun _ _ => true) c1State
      "" "" (mkRat 9 10) "m1" "m1" "m0" rfl).2.2.2⟩

def c8State : ATState :=
  ⟨[⟨"a", TriggerKind.scene, "combat"⟩, ⟨"b", TriggerKind.scene, "combat"⟩],
    some "a"⟩

/-- C8 counterexample: with two mappings for scene "combat" and the first one
currently playing, a scene-type mapping whose id differs from
`currentlyPlaying` exists (the second one), the confidence is 0.9 ≥ 0.6, yet
`handleSceneChange` fires nothing, because the lookup takes the *first*
matching mapping and that one is currently playing. -/
theorem handleSceneChange_exists_unplayed_mapping_but_silent :
    (¬ mkRat 9 10 < mkRat 6 10) ∧
      (∃ m ∈ c8State.soundMappings,
        m.triggerType = TriggerKind.scene ∧ m.triggerValue = "combat" ∧
          ¬ c8State.currentlyPlaying = some m.id) ∧
      (AudioTriggerService.handleSceneChange c8State "combat" (mkRat 9 10)).1
        = [] := by
  refine ⟨by decide, ⟨⟨"b", TriggerKind.scene, "combat"⟩, ?_, rfl, rfl, by decide⟩, ?_⟩
  · simp [c8State]
  · decide

/-- C8 amended: `handleSceneChange(scene, confidence)` is a no-op when
confidence < 0.6; otherwise it fires exactly one `crossfade` event if and only
if the *first* mapping with trigger type `scene` and trigger value `scene`
exists and its id differs from `currentlyPlaying`, and in that case
`currentlyPlaying` becomes that mapping's id. -/
theorem handleSceneChange_spec (st : ATState) (scene : String) (conf : ℚ) :
    (conf < mkRat 6 10 →
      AudioTriggerService.handleSceneChange st scene conf = ([], st)) ∧
    (¬ conf < mkRat 6 10 →
      ∀ m, st.soundMappings.find?
          (fun x => x.triggerType == TriggerKind.scene && x.triggerValue == scene)
            = some m →
        (st.currentlyPlaying = some m.id →
          AudioTriggerService.handleSceneChange st scene conf = ([], st)) ∧
        (¬ st.currentlyPlaying = some m.id →
          AudioTriggerService.handleSceneChange st scene conf =
            ([⟨m.id, TriggerAction.crossfade⟩],
              { st with currentlyPlaying := some m.id }))) ∧
    (¬ conf < mkRat 6 10 →
      st.soundMappings.find?
          (fun x => x.triggerType == TriggerKind.scene && x.triggerValue == scene)
            = none →
        AudioTriggerService.handleSceneChange st scene conf = ([], st)) := by
  refine ⟨fun hc => ?_, fun hc m hm => ⟨fun hcur => ?_, fun hcur => ?_⟩,
    fun hc hn => ?_⟩
  · unfold AudioTriggerService.handleSceneChange
    simp [hc]
  · unfold AudioTriggerService.handleSceneChange
    simp [hc, hm, hcur]
  · have hmem : m ∈ st.soundMappings := List.mem_of_find?_eq_some hm
    have hfind2 : st.soundMappings.find? (fun x => x.id == m.id) ≠ none := by
      intro hnone
      have := List.find?_eq_none.mp hnone m hmem
      simp at this
    have hbe : (st.currentlyPlaying == some m.id) = false := by
      rw [beq_eq_false_iff_ne]
      exact hcur
    obtain ⟨m2, hf2⟩ := Option.ne_none_iff_exists'.mp hfind2
    unfold AudioTriggerService.handleSceneChange
    rw [if_neg hc, hm]
    simp only [hbe, Bool.false_eq_true, if_false]
    unfold AudioTriggerService.triggerSound
    rw [hf2]
    simp [ite_self]
  · unfold AudioTriggerService.handleSceneChange
    simp [hc, hn]

theorem handleSceneChange_spec_witness :
    AudioTriggerService.handleSceneChange c8State "combat" (mkRat 1 10) =
      ([], c8State) :=
  (handleSceneChange_spec c8State "combat" (mkRat 1 10)).1 (by decide)

/-! ## Transcript segments and the merge pass (websocket/index.ts) -/

/-- Mirrors the `TranscriptSegment` interface of transcription.ts lines 6-14
(`speakerName: string | null` becomes `Option String`). -/
structure TranscriptSegment where
  id : String
  timestamp : Int
  speakerLabel : String
  speakerName : Option String
  text : String
  confidence : ℚ
  isEdited : Bool
deriving DecidableEq, Repr

/-- List-level check that `p` occurs at the start of `s`: JavaScript
`s.startsWith(p)`, written out over character lists so that the kernel can
evaluate it. -/
def charsMatch : List Char → List Char → Bool
  | [], _ => true
  | _ :: _, [] => false
  | c :: cs, d :: ds => c == d && charsMatch cs ds

/-- JavaScript `s.startsWith(p)`. -/
def jsStartsWith (s p : String) : Bool :=
  charsMatch p.data s.data

/-- JavaScript `s.trim()`: strip leading and trailing whitespace.  Defined
over the character list so that the kernel can evaluate it. -/
def jsTrim (s : String) : String :=
  String.mk (((s.data.dropWhile Char.isWhitespace).reverse.dropWhile
    Char.isWhitespace).reverse)

/-- JavaScript `segment.speakerName || segment.speakerLabel`: the fallback
fires on `null` and on the empty string (both falsy). -/
def effectiveSpeaker (s : TranscriptSegment) : String :=
  match s.speakerName with
  | some n => if n = "" then s.speakerLabel else n
  | none => s.speakerLabel

/-- Embeds `hasConfirmedSpeaker` (websocket/index.ts line 71). -/
def hasConfirmedSpeaker (s : String) : Bool :=
  !(jsStartsWith s "Speaker ")

/-- Payload of a `transcript:merged` emission (websocket/index.ts
lines 96-100). -/
structure MergedEvent where
  targetId : String
  mergedId : String
  newText : String
deriving DecidableEq, Repr

/-- Mutable state carried by one run of `mergeConsecutiveSegments`: the
segment buffer, the `toRemove` set, the session's `mergedSegmentIds` set, and
the `transcript:merged` events emitted so far (sets are modelled as lists,
membership as `contains`). -/
structure MergeState where
  segments : List TranscriptSegment
  toRemove : List String
  mergedSegmentIds : List String
  events : List MergedEvent
deriving DecidableEq, Repr

/-- Embeds the `while` loop of `mergeConsecutiveSegments` (websocket/index.ts
lines 55-110).  `fuel` only bounds the number of iterations so the recursion
is structural; the wrapper passes `endIndex`, which exceeds the number of
iterations the loop can perform, so the fuel never runs out before the loop
condition fails. -/
def mergeLoop (endIndex : Nat) : Nat → MergeState → Nat → MergeState
  | 0, ms, _ => ms
  | fuel + 1, ms, i =>
    if i < endIndex - 1 ∧ i < ms.segments.length - 1 then
      match ms.segments[i]?, ms.segments[i + 1]? with
      | some current, some next =>
        if ms.toRemove.contains current.id || ms.toRemove.contains next.id then
          mergeLoop endIndex fuel ms (i + 1)
        else
          if effectiveSpeaker current == effectiveSpeaker next &&
              hasConfirmedSpeaker (effectiveSpeaker current) then
            if ms.mergedSegmentIds.contains (current.id ++ ":" ++ next.id) then
              mergeLoop endIndex fuel ms (i + 1)
            else
              mergeLoop endIndex fuel
                { segments := ms.segments.set i
                    { current with
                      text := jsTrim (current.text ++ " " ++ next.text) },
                  toRemove := ms.toRemove ++ [next.id],
                  mergedSegmentIds :=
                    ms.mergedSegmentIds ++ [current.id ++ ":" ++ next.id],
                  events := ms.events ++
                    [⟨current.id, next.id,
                      jsTrim (current.text ++ " " ++ next.text)⟩] }
                (i + 1)
          else
            mergeLoop endIndex fuel ms (i + 1)
      | _, _ => ms
    else ms

/-- Embeds `mergeConsecutiveSegments(segments, startIndex, endIndex, socket,
mergedSegmentIds)` (websocket/index.ts lines 45-121): runs the scan loop and
then removes the merged segments from the buffer (the backwards splice is a
filter). -/
def mergeConsecutiveSegments (segments : List TranscriptSegment)
    (startIndex endIndex : Nat) (mergedSegmentIds : List String) : MergeState :=
  let ms := mergeLoop endIndex endIndex
    ⟨segments, [], mergedSegmentIds, []⟩ startIndex
  { ms with
    segments := ms.segments.filter (fun s => !(ms.toRemove.contains s.id)) }

def c2seg1 : TranscriptSegment :=
  ⟨"1", 0, "Speaker A", some "Alice", "a", mkRat 1 1, false⟩
def c2seg2 : TranscriptSegment :=
  ⟨"2", 0, "Speaker A", some "Alice", "b", mkRat 1 1, false⟩
def c2seg3 : TranscriptSegment :=
  ⟨"3", 0, "Speaker B", some "Alice", "c", mkRat 1 1, false⟩
def c2fill (n : String) : TranscriptSegment :=
  ⟨n, 0, "Speaker A", none, "x", mkRat 1 1, false⟩

/-- Seven-segment buffer with three consecutive settled segments attributed to
the confirmed speaker Alice, followed by four not-yet-settled segments. -/
def c2segs : List TranscriptSegment :=
  [c2seg1, c2seg2, c2seg3, c2fill "4", c2fill "5", c2fill "6", c2fill "7"]

/-- C2 counterexample: running the merge pass a second time over the unchanged
window does NOT leave the buffer unchanged.  The first pass (settled end 7-4=3)
merges segment 2 into segment 1 and stops; the second pass finds segments 1
and 3 newly adjacent, their pair key "1:3" is not in `mergedSegmentIds`
(which only records "1:2"), and merges again, changing the buffer. -/
theorem merge_second_pass_changes_buffer :
    ((mergeConsecutiveSegments
        (mergeConsecutiveSegments c2segs 0 (c2segs.length - 4) []).segments
        0
        ((mergeConsecutiveSegments c2segs 0 (c2segs.length - 4) []).segments.length - 4)
        (mergeConsecutiveSegments c2segs 0 (c2segs.length - 4) []).mergedSegmentIds).segments
      ≠ (mergeConsecutiveSegments c2segs 0 (c2segs.length - 4) []).segments) := by
  decide

/-- C3 counterexample: segments 2 and 3 are adjacent inside the settled
prefix (indices 1 and 2, settled end 3) and share the same confirmed effective
speaker "Alice", yet the pass does not merge segment 3 into segment 2: segment
2 was already consumed by the merge of the pair (1,2), so the scan skips the
pair (2,3).  The "if" direction of the claimed iff fails. -/
theorem merge_pair_condition_holds_but_not_merged :
    (effectiveSpeaker c2seg2 = effectiveSpeaker c2seg3 ∧
      hasConfirmedSpeaker (effectiveSpeaker c2seg2) = true ∧
      c2segs[1]? = some c2seg2 ∧ c2segs[2]? = some c2seg3 ∧
      (2 : Nat) < c2segs.length - 4) ∧
    ((mergeConsecutiveSegments c2segs 0 (c2segs.length - 4) []).events.all
      (fun ev => !(ev.targetId == "2" && ev.mergedId == "3")) = true) ∧
    c2seg3 ∈ (mergeConsecutiveSegments c2segs 0 (c2segs.length - 4) []).segments := by
  refine ⟨by decide, by decide, ?_⟩
  have h : (mergeConsecutiveSegments c2segs 0 (c2segs.length - 4) []).segments =
      [{ c2seg1 with text := "a b" }, c2seg3, c2fill "4", c2fill "5",
        c2fill "6", c2fill "7"] := by decide
  rw [h]
  simp

/-- Shape of a transcript segment without its `text` field.  The merge loop
rewrites only `text`; every other field of every buffer position is
preserved. -/
def segShape (s : TranscriptSegment) :
    String × Int × String × Option String × ℚ × Bool :=
  (s.id, s.timestamp, s.speakerLabel, s.speakerName, s.confidence, s.isEdited)

theorem mergeLoop_invariants (e : Nat) :
    ∀ (fuel : Nat) (ms : MergeState) (i : Nat),
      ((mergeLoop e fuel ms i).segments.length = ms.segments.length) ∧
      (∀ j : Nat, ((mergeLoop e fuel ms i).segments[j]?).map segShape
          = (ms.segments[j]?).map segShape) ∧
      (∀ j : Nat, e - 1 ≤ j →
          (mergeLoop e fuel ms i).segments[j]? = ms.segments[j]?) ∧
      (∃ ext, (mergeLoop e fuel ms i).mergedSegmentIds
          = ms.mergedSegmentIds ++ ext) ∧
      (∀ x ∈ (mergeLoop e fuel ms i).toRemove,
          x ∈ ms.toRemove ∨ ∃ k : Nat, k + 1 < e ∧
            (ms.segments[k + 1]?).map TranscriptSegment.id = some x) ∧
      (∀ ev ∈ (mergeLoop e fuel ms i).events,
          ev ∈ ms.events ∨ ∃ (k : Nat) (a b : TranscriptSegment),
            i ≤ k ∧ k + 1 < e ∧
            ms.segments[k]? = some a ∧ ms.segments[k + 1]? = some b ∧
            effectiveSpeaker a = effectiveSpeaker b ∧
            hasConfirmedSpeaker (effectiveSpeaker a) = true ∧
            (a.id ++ ":" ++ b.id) ∉ ms.mergedSegmentIds ∧
            (a.id ++ ":" ++ b.id) ∈ (mergeLoop e fuel ms i).mergedSegmentIds ∧
            ev = ⟨a.id, b.id, jsTrim (a.text ++ " " ++ b.text)⟩) := by
  intro fuel
  induction fuel with
  | zero =>
    intro ms i
    exact ⟨rfl, fun j => rfl, fun j _ => rfl, ⟨[], (List.append_nil _).symm⟩,
      fun x hx => Or.inl hx, fun ev hev => Or.inl hev⟩
  | succ n ih =>
    intro ms i
    simp only [mergeLoop]
    by_cases hguard : i < e - 1 ∧ i < ms.segments.length - 1
    · rw [if_pos hguard]
      cases hcur : ms.segments[i]? with
      | none =>
        exact ⟨rfl, fun j => rfl, fun j _ => rfl, ⟨[], (List.append_nil _).symm⟩,
          fun x hx => Or.inl hx, fun ev hev => Or.inl hev⟩
      | some current =>
        cases hnext : ms.segments[i + 1]? with
        | none =>
          exact ⟨rfl, fun j => rfl, fun j _ => rfl,
            ⟨[], (List.append_nil _).symm⟩,
            fun x hx => Or.inl hx, fun ev hev => Or.inl hev⟩
        | some next =>
          dsimp only
          by_cases hrem :
              (ms.toRemove.contains current.id
                || ms.toRemove.contains next.id) = true
          · rw [if_pos hrem]
            obtain ⟨h1, h2, h3, h4, h5, h6⟩ := ih ms (i + 1)
            refine ⟨h1, h2, h3, h4, h5, fun ev hev => ?_⟩
            rcases h6 ev hev with h |
              ⟨k, a, b, hik, hke, ha, hb, hsp, hcf, hni, hin, heq⟩
            · exact Or.inl h
            · exact Or.inr ⟨k, a, b, by omega, hke, ha, hb, hsp, hcf, hni,
                hin, heq⟩
          · rw [if_neg hrem]
            by_cases hspk :
                (effectiveSpeaker current == effectiveSpeaker next &&
                  hasConfirmedSpeaker (effectiveSpeaker current)) = true
            · rw [if_pos hspk]
              by_cases hkey :
                  (ms.mergedSegmentIds.contains
                    (current.id ++ ":" ++ next.id)) = true
              · rw [if_pos hkey]
                obtain ⟨h1, h2, h3, h4, h5, h6⟩ := ih ms (i + 1)
                refine ⟨h1, h2, h3, h4, h5, fun ev hev => ?_⟩
                rcases h6 ev hev with h |
                  ⟨k, a, b, hik, hke, ha, hb, hsp, hcf, hni, hin, heq⟩
                · exact Or.inl h
                · exact Or.inr ⟨k, a, b, by omega, hke, ha, hb, hsp, hcf,
                    hni, hin, heq⟩
              · rw [if_neg hkey]
                have hlen_i : i < ms.segments.length := by omega
                have hie : i + 1 < e := by omega
                rw [Bool.and_eq_true] at hspk
                obtain ⟨hspeq, hconf⟩ := hspk
                have hspeq2 : effectiveSpeaker current = effectiveSpeaker next :=
                  beq_iff_eq.mp hspeq
                have hnotin :
                    (current.id ++ ":" ++ next.id) ∉ ms.mergedSegmentIds := by
                  simpa using hkey
                have hshape2 : ∀ j : Nat,
                    ((ms.segments.set i
                      { current with
                        text := jsTrim (current.text ++ " " ++ next.text) })[j]?).map
                          segShape
                      = (ms.segments[j]?).map segShape := by
                  intro j
                  by_cases hj : i = j
                  · subst hj
                    rw [List.getElem?_set_self hlen_i, hcur]
                    rfl
                  · rw [List.getElem?_set_ne hj]
                have hid2 : ∀ j : Nat,
                    ((ms.segments.set i
                      { current with
                        text := jsTrim (current.text ++ " " ++ next.text) })[j]?).map
                          TranscriptSegment.id
                      = (ms.segments[j]?).map TranscriptSegment.id := by
                  intro j
                  by_cases hj : i = j
                  · subst hj
                    rw [List.getElem?_set_self hlen_i, hcur]
                    rfl
                  · rw [List.getElem?_set_ne hj]
                obtain ⟨h1, h2, h3, h4, h5, h6⟩ := ih
                  { segments := ms.segments.set i
                      { current with
                        text := jsTrim (current.text ++ " " ++ next.text) },
                    toRemove := ms.toRemove ++ [next.id],
                    mergedSegmentIds :=
                      ms.mergedSegmentIds ++ [current.id ++ ":" ++ next.id],
                    events := ms.events ++
                      [⟨current.id, next.id,
                        jsTrim (current.text ++ " " ++ next.text)⟩] } (i + 1)
                refine ⟨?_, ?_, ?_, ?_, ?_, ?_⟩
                · rw [h1]
                  exact List.length_set ms.segments i _
                · intro j
                  exact (h2 j).trans (hshape2 j)
                · intro j hj
                  refine (h3 j hj).trans ?_
                  exact List.getElem?_set_ne (by omega)
                · obtain ⟨ext, hext⟩ := h4
                  refine ⟨[current.id ++ ":" ++ next.id] ++ ext, ?_⟩
                  rw [hext]
                  simp
                · intro x hx
                  rcases h5 x hx with hx2 | ⟨k, hke, hidk⟩
                  · rcases List.mem_append.mp hx2 with hx3 | hx3
                    · exact Or.inl hx3
                    · refine Or.inr ⟨i, hie, ?_⟩
                      rw [hnext]
                      simpa using (List.mem_singleton.mp hx3).symm
                  · refine Or.inr ⟨k, hke, ?_⟩
                    rw [← hid2 (k + 1)]
                    exact hidk
                · intro ev hev
                  rcases h6 ev hev with hev2 |
                    ⟨k, a, b, hik, hke, ha, hb, hsp, hcf2, hni, hin, heq⟩
                  · rcases List.mem_append.mp hev2 with hev3 | hev3
                    · exact Or.inl hev3
                    · have hevEq := List.mem_singleton.mp hev3
                      refine Or.inr ⟨i, current, next, le_refl i, hie, hcur,
                        hnext, hspeq2, hconf, hnotin, ?_, hevEq⟩
                      obtain ⟨ext, hext⟩ := h4
                      rw [hext]
                      exact List.mem_append.mpr (Or.inl
                        (List.mem_append.mpr (Or.inr (List.mem_singleton.mpr rfl))))
                  · refine Or.inr ⟨k, a, b, by omega, hke, ?_, ?_, hsp, hcf2,
                      ?_, hin, heq⟩
                    · rw [← ha]
                      exact (List.getElem?_set_ne (by omega)).symm
                    · rw [← hb]
                      exact (List.getElem?_set_ne (by omega)).symm
                    · intro hmem
                      exact hni (List.mem_append.mpr (Or.inl hmem))
            · rw [if_neg hspk]
              obtain ⟨h1, h2, h3, h4, h5, h6⟩ := ih ms (i + 1)
              refine ⟨h1, h2, h3, h4, h5, fun ev hev => ?_⟩
              rcases h6 ev hev with h |
                ⟨k, a, b, hik, hke, ha, hb, hsp, hcf, hni, hin, heq⟩
              · exact Or.inl h
              · exact Or.inr ⟨k, a, b, by omega, hke, ha, hb, hsp, hcf, hni,
                  hin, heq⟩
    · rw [if_neg hguard]
      exact ⟨rfl, fun j => rfl, fun j _ => rfl, ⟨[], (List.append_nil _).symm⟩,
        fun x hx => Or.inl hx, fun ev hev => Or.inl hev⟩

theorem getElem_some_lt {α : Type} {l : List α} {n : Nat} {a : α}
    (h : l[n]? = some a) : n < l.length := by
  by_contra hc
  rw [List.getElem?_eq_none (by omega)] at h
  cases h

/-- C2 amended: a merge pass never re-merges a recorded pair.  Every
`transcript:merged` event emitted by a pass concerns a pair whose merge key
`currentId:nextId` was absent from the incoming `mergedSegmentIds`, and that
key is recorded in the outgoing set, so rerunning the pass over the same
window cannot concatenate the same pair's text twice.  (The buffer itself may
still change on a second pass: see the counterexample — a chain of three
same-speaker segments merges once more when rerun.) -/
theorem merge_no_pair_merged_twice (segs : List TranscriptSegment)
    (startIndex endIndex : Nat) (ids : List String) :
    ∀ ev ∈ (mergeConsecutiveSegments segs startIndex endIndex ids).events,
      (ev.targetId ++ ":" ++ ev.mergedId) ∉ ids ∧
      (ev.targetId ++ ":" ++ ev.mergedId) ∈
        (mergeConsecutiveSegments segs startIndex endIndex ids).mergedSegmentIds := by
  intro ev hev
  obtain ⟨-, -, -, -, -, h6⟩ :=
    mergeLoop_invariants endIndex endIndex ⟨segs, [], ids, []⟩ startIndex
  have hev2 : ev ∈
      (mergeLoop endIndex endIndex ⟨segs, [], ids, []⟩ startIndex).events := hev
  rcases h6 ev hev2 with h | ⟨k, a, b, _, _, _, _, _, _, hni, hin, heq⟩
  · exact absurd h (List.not_mem_nil ev)
  · subst heq
    exact ⟨hni, hin⟩

theorem merge_no_pair_merged_twice_witness :
    (("1" ++ ":" ++ "2") ∉ ([] : List String)) ∧
      ("1" ++ ":" ++ "2") ∈
        (mergeConsecutiveSegments c2segs 0 3 []).mergedSegmentIds :=
  merge_no_pair_merged_twice c2segs 0 3 [] ⟨"1", "2", "a b"⟩ (by decide)

/-- C3 amended: the merge pass touches only the settled region: every segment
at or beyond `endIndex` (in the application, everything in the most recent 4)
survives completely unchanged when segment ids are unique; and a pair is
merged *only if* the two segments are adjacent within the settled region,
share the same effective speaker, that speaker is confirmed, and the merged
text is `next`'s text appended to `current`'s with a single separating space
(then trimmed).  The converse fails: a conforming pair can be skipped when its
left segment was already consumed, or when its merge key is recorded. -/
theorem mergeConsecutiveSegments_spec (segs : List TranscriptSegment)
    (endIndex : Nat) (ids : List String)
    (hnd : (segs.map TranscriptSegment.id).Nodup) :
    (∀ s ∈ segs.drop endIndex,
        s ∈ (mergeConsecutiveSegments segs 0 endIndex ids).segments) ∧
    (∀ ev ∈ (mergeConsecutiveSegments segs 0 endIndex ids).events,
        ∃ (k : Nat) (a b : TranscriptSegment), k + 1 < endIndex ∧
          segs[k]? = some a ∧ segs[k + 1]? = some b ∧
          effectiveSpeaker a = effectiveSpeaker b ∧
          hasConfirmedSpeaker (effectiveSpeaker a) = true ∧
          ev = ⟨a.id, b.id, jsTrim (a.text ++ " " ++ b.text)⟩) := by
  obtain ⟨h1, h2, h3, h4, h5, h6⟩ :=
    mergeLoop_invariants endIndex endIndex ⟨segs, [], ids, []⟩ 0
  constructor
  · intro s hs
    obtain ⟨m, hm⟩ := List.getElem?_of_mem hs
    have hj : segs[endIndex + m]? = some s := by
      rw [← List.getElem?_drop]
      exact hm
    have hj2 : (mergeLoop endIndex endIndex
        ⟨segs, [], ids, []⟩ 0).segments[endIndex + m]? = some s := by
      rw [h3 (endIndex + m) (by omega)]
      exact hj
    have hmem : s ∈ (mergeLoop endIndex endIndex
        ⟨segs, [], ids, []⟩ 0).segments := List.getElem?_mem hj2
    cases hcontains : ((mergeLoop endIndex endIndex
        ⟨segs, [], ids, []⟩ 0).toRemove.contains s.id) with
    | false =>
      refine List.mem_filter.mpr ⟨hmem, ?_⟩
      rw [hcontains]
      rfl
    | true =>
      exfalso
      have hsid : s.id ∈ (mergeLoop endIndex endIndex
          ⟨segs, [], ids, []⟩ 0).toRemove := by
        simpa using hcontains
      rcases h5 s.id hsid with h | ⟨k, hke, hidk⟩
      · exact List.not_mem_nil _ h
      · have hmap1 : (segs.map TranscriptSegment.id)[k + 1]? = some s.id := by
          rw [List.getElem?_map]
          exact hidk
        have hmap2 : (segs.map TranscriptSegment.id)[endIndex + m]?
            = some s.id := by
          rw [List.getElem?_map, hj]
          rfl
        have hlt : endIndex + m < (segs.map TranscriptSegment.id).length := by
          rw [List.length_map]
          exact getElem_some_lt hj
        have hne := (List.nodup_iff_getElem?_ne_getElem?.mp hnd)
          (k + 1) (endIndex + m) (by omega) hlt
        exact hne (hmap1.trans hmap2.symm)
  · intro ev hev
    have hev2 : ev ∈
        (mergeLoop endIndex endIndex ⟨segs, [], ids, []⟩ 0).events := hev
    rcases h6 ev hev2 with h | ⟨k, a, b, _, hke, ha, hb, hsp, hcf, _, _, heq⟩
    · exact absurd h (List.not_mem_nil ev)
    · exact ⟨k, a, b, hke, ha, hb, hsp, hcf, heq⟩

theorem mergeConsecutiveSegments_spec_witness :
    c2fill "7" ∈ (mergeConsecutiveSegments c2segs 0 3 []).segments :=
  (mergeConsecutiveSegments_spec c2segs 3 [] (by decide)).1 (c2fill "7")
    (by decide)

/-- The operations of the live pipeline that rewrite the transcript buffer:
instant cached correction (websocket/index.ts line 218), the deferred AI
correction write (line 239), retroactive speaker attribution (line 305),
the manual `speaker:attribute` handler (lines 449-453), and the merge pass
(line 321).  Each one is expressed as a function on the buffer. -/
inductive PipelineOp where
  | instantCorrection (j : Nat) (newText : String)
  | aiCorrection (j : Nat) (newText : String)
  | retroAttribution (j : Nat) (name : String)
  | manualAttribution (j : Nat) (name : String)
  | mergePass (endIndex : Nat) (ids : List String)

/-- Effect of each pipeline operation on the transcript buffer.  The text
corrections write `text` at a position; attribution writes `speakerName` (the
manual handler also sets `isEdited`); the merge pass runs
`mergeConsecutiveSegments` over the settled region.  No operation writes
`speakerLabel`. -/
def applyPipelineOp (segs : List TranscriptSegment) :
    PipelineOp → List TranscriptSegment
  | PipelineOp.instantCorrection j t =>
    match segs[j]? with
    | some s => segs.set j { s with text := t }
    | none => segs
  | PipelineOp.aiCorrection j t =>
    match segs[j]? with
    | some s => segs.set j { s with text := t }
    | none => segs
  | PipelineOp.retroAttribution j name =>
    match segs[j]? with
    | some s => segs.set j { s with speakerName := some name }
    | none => segs
  | PipelineOp.manualAttribution j name =>
    match segs[j]? with
    | some s => segs.set j { s with speakerName := some name, isEdited := true }
    | none => segs
  | PipelineOp.mergePass endIndex ids =>
    (mergeConsecutiveSegments segs 0 endIndex ids).segments

/-- C5: no pipeline operation ever changes a segment's `speakerLabel` (nor its
`id`, `timestamp` or `confidence`): every segment of the buffer after any
operation agrees on those fields with a segment of the buffer before it.
Only `speakerName`, `text` and `isEdited` are ever mutated. -/
theorem pipeline_preserves_speakerLabel (segs : List TranscriptSegment)
    (op : PipelineOp) :
    ∀ s2 ∈ applyPipelineOp segs op, ∃ s1 ∈ segs,
      s1.id = s2.id ∧ s1.speakerLabel = s2.speakerLabel ∧
      s1.timestamp = s2.timestamp ∧ s1.confidence = s2.confidence := by
  intro s2 hs2
  cases op with
  | instantCorrection j t =>
    dsimp only [applyPipelineOp] at hs2
    cases hj : segs[j]? with
    | none =>
      rw [hj] at hs2
      exact ⟨s2, hs2, rfl, rfl, rfl, rfl⟩
    | some s =>
      rw [hj] at hs2
      rcases List.mem_or_eq_of_mem_set hs2 with h | h
      · exact ⟨s2, h, rfl, rfl, rfl, rfl⟩
      · subst h
        exact ⟨s, List.getElem?_mem hj, rfl, rfl, rfl, rfl⟩
  | aiCorrection j t =>
    dsimp only [applyPipelineOp] at hs2
    cases hj : segs[j]? with
    | none =>
      rw [hj] at hs2
      exact ⟨s2, hs2, rfl, rfl, rfl, rfl⟩
    | some s =>
      rw [hj] at hs2
      rcases List.mem_or_eq_of_mem_set hs2 with h | h
      · exact ⟨s2, h, rfl, rfl, rfl, rfl⟩
      · subst h
        exact ⟨s, List.getElem?_mem hj, rfl, rfl, rfl, rfl⟩
  | retroAttribution j name =>
    dsimp only [applyPipelineOp] at hs2
    cases hj : segs[j]? with
    | none =>
      rw [hj] at hs2
      exact ⟨s2, hs2, rfl, rfl, rfl, rfl⟩
    | some s =>
      rw [hj] at hs2
      rcases List.mem_or_eq_of_mem_set hs2 with h | h
      · exact ⟨s2, h, rfl, rfl, rfl, rfl⟩
      · subst h
        exact ⟨s, List.getElem?_mem hj, rfl, rfl, rfl, rfl⟩
  | manualAttribution j name =>
    dsimp only [applyPipelineOp] at hs2
    cases hj : segs[j]? with
    | none =>
      rw [hj] at hs2
      exact ⟨s2, hs2, rfl, rfl, rfl, rfl⟩
    | some s =>
      rw [hj] at hs2
      rcases List.mem_or_eq_of_mem_set hs2 with h | h
      · exact ⟨s2, h, rfl, rfl, rfl, rfl⟩
      · subst h
        exact ⟨s, List.getElem?_mem hj, rfl, rfl, rfl, rfl⟩
  | mergePass endIndex ids =>
    dsimp only [applyPipelineOp] at hs2
    have hs3 : s2 ∈ (mergeLoop endIndex endIndex
        ⟨segs, [], ids, []⟩ 0).segments := List.mem_of_mem_filter hs2
    obtain ⟨m, hm⟩ := List.getElem?_of_mem hs3
    have hsh := (mergeLoop_invariants endIndex endIndex
      ⟨segs, [], ids, []⟩ 0).2.1 m
    rw [hm] at hsh
    cases hsm : segs[m]? with
    | none =>
      have : (⟨segs, [], ids, []⟩ : MergeState).segments[m]? = none := hsm
      rw [this] at hsh
      cases hsh
    | some s1 =>
      have : (⟨segs, [], ids, []⟩ : MergeState).segments[m]? = some s1 := hsm
      rw [this] at hsh
      have hsh2 : segShape s2 = segShape s1 := by
        injection hsh
      simp only [segShape, Prod.mk.injEq] at hsh2
      obtain ⟨hid, hts, hlb, -, hcf, -⟩ := hsh2
      exact ⟨s1, List.getElem?_mem hsm, hid.symm, hlb.symm, hts.symm, hcf.symm⟩

theorem pipeline_preserves_speakerLabel_witness :
    ∃ s1 ∈ [c2seg1], s1.id = ({ c2seg1 with speakerName := some "Ann" } :
        TranscriptSegment).id ∧
      s1.speakerLabel = ({ c2seg1 with speakerName := some "Ann" } :
        TranscriptSegment).speakerLabel ∧
      s1.timestamp = ({ c2seg1 with speakerName := some "Ann" } :
        TranscriptSegment).timestamp ∧
      s1.confidence = ({ c2seg1 with speakerName := some "Ann" } :
        TranscriptSegment).confidence :=
  pipeline_preserves_speakerLabel [c2seg1]
    (PipelineOp.retroAttribution 0 "Ann")
    { c2seg1 with speakerName := some "Ann" } (by decide)

/-! ## AI transcript correction (ai.ts) -/

/-- True on the two quote characters stripped by the regular expression
`/^["']+|["']+$/` in ai.ts line 101 (double quote, code 34; single quote,
code 39). -/
def isQuoteChar (c : Char) : Bool :=
  c == Char.ofNat 34 || c == Char.ofNat 39

/-- JavaScript `s.replace(/^["']+|["']+$/g, "")`: remove every leading and
trailing quote character. -/
def stripOuterQuotes (s : String) : String :=
  String.mk (((s.data.dropWhile isQuoteChar).reverse.dropWhile
    isQuoteChar).reverse)

/-- Result of one `correctTranscriptWithAI` call: the returned text and
whether `learnCorrections` was reached (a wrong→right pair can only be cached
on that path). -/
structure CorrectionResult where
  text : String
  learned : Bool
deriving DecidableEq, Repr

/-- Embeds `AIService.correctTranscriptWithAI(text, recentContext)` (ai.ts
lines 51-127).  The model's reply is the oracle `response`; `none` covers both
a missing `choices[0].message.content` and the catch branch, which return the
input unchanged.  The reply is trimmed, stripped of surrounding quotes and
trimmed again; an empty or unchanged candidate returns the input; a candidate
longer than `max(3 × input, input + 50)` characters is rejected and the input
returned; otherwise the candidate is returned and corrections are learned. -/
def correctTranscriptWithAI (text : String) (response : Option String) :
    CorrectionResult :=
  if jsTrim text = "" then ⟨text, false⟩
  else
    match response with
    | none => ⟨text, false⟩
    | some content =>
      if jsTrim content = "" then ⟨text, false⟩
      else
        let corrected := jsTrim (stripOuterQuotes (jsTrim content))
        if corrected ≠ "" ∧ corrected ≠ text then
          if corrected.length > max (text.length * 3) (text.length + 50) then
            ⟨text, false⟩
          else
            ⟨corrected, true⟩
        else ⟨text, false⟩

/-- The caller (websocket/index.ts lines 235-247) emits `transcript:corrected`
iff the returned text differs from the stored segment text. -/
def emitsCorrection (storedText correctedText : String) : Bool :=
  correctedText != storedText

/-- C4: whenever the corrected candidate (the model reply after trimming and
quote-stripping) is longer than `max(3 × input length, input length + 50)`
characters, `correctTranscriptWithAI` returns the input unchanged, learns no
correction pair, and — since the returned text equals the stored text — the
caller emits no `transcript:corrected` event. -/
theorem correctTranscriptWithAI_rejects_overlong (text content : String)
    (h : (jsTrim (stripOuterQuotes (jsTrim content))).length >
      max (text.length * 3) (text.length + 50)) :
    (correctTranscriptWithAI text (some content)).text = text ∧
    (correctTranscriptWithAI text (some content)).learned = false ∧
    emitsCorrection text (correctTranscriptWithAI text (some content)).text
      = false := by
  have hres : (correctTranscriptWithAI text (some content)) = ⟨text, false⟩ := by
    unfold correctTranscriptWithAI
    by_cases h0 : jsTrim text = ""
    · rw [if_pos h0]
    · rw [if_neg h0]
      dsimp only
      by_cases h1 : jsTrim content = ""
      · rw [if_pos h1]
      · rw [if_neg h1]
        have hne : jsTrim (stripOuterQuotes (jsTrim content)) ≠ "" := by
          intro he
          rw [he] at h
          have : ("" : String).length = 0 := rfl
          omega
        have hnt : jsTrim (stripOuterQuotes (jsTrim content)) ≠ text := by
          intro he
          rw [he] at h
          omega
        rw [if_pos ⟨hne, hnt⟩, if_pos h]
  rw [hres]
  refine ⟨rfl, rfl, ?_⟩
  simp [emitsCorrection]

theorem correctTranscriptWithAI_rejects_overlong_witness :
    ((correctTranscriptWithAI "a"
        (some (String.mk (List.replicate 60 'x')))).text = "a" ∧
      (correctTranscriptWithAI "a"
        (some (String.mk (List.replicate 60 'x')))).learned = false ∧
      emitsCorrection "a" (correctTranscriptWithAI "a"
        (some (String.mk (List.replicate 60 'x')))).text = false) :=
  correctTranscriptWithAI_rejects_overlong "a"
    (String.mk (List.replicate 60 'x')) (by decide)

/-! ## Health event confirmation (websocket/index.ts health:confirm) -/

inductive HealthEventType where
  | damage
  | healing
  | status
deriving DecidableEq, Repr

/-- The fields of a `healthEvent` row that the `health:confirm` handler reads
or writes (`value: number | null` becomes `Option Int`). -/
structure HealthEvent where
  id : String
  playerId : String
  type : HealthEventType
  value : Option Int
  confirmed : Bool
deriving DecidableEq, Repr

structure Player where
  id : String
  currentHp : Int
  maxHp : Int
deriving DecidableEq, Repr

/-- Value stored back into the event row by the Prisma update
`value: data.modifiedValue`: an `undefined` `modifiedValue` leaves the stored
value unchanged, a number overwrites it. -/
def resolvedValue (event : HealthEvent) (modifiedValue : Option Int) :
    Option Int :=
  match modifiedValue with
  | some v => some v
  | none => event.value

/-- Outcome of one `health:confirm` round trip: the updated event row, the
`currentHp` written to the player row (if the handler writes one), and the
`player:updated` emission payload. -/
structure HealthConfirmOutcome where
  event : HealthEvent
  playerWrite : Option Int
  emission : Option (String × Int)
deriving DecidableEq, Repr

/-- Embeds the `health:confirm` handler (websocket/index.ts lines 538-571):
the event row is updated with the confirmation flag and optional modified
value; only when `confirmed` is true and the stored value is non-null is a new
HP computed — `max(0, hp − value)` for damage, `min(maxHp, hp + value)` for
healing, the unchanged HP otherwise — written to the player and emitted. -/
def healthConfirm (event : HealthEvent) (player : Player) (confirmed : Bool)
    (modifiedValue : Option Int) : HealthConfirmOutcome :=
  let event2 := { event with
    confirmed := confirmed, value := resolvedValue event modifiedValue }
  if confirmed then
    match event2.value with
    | some v =>
      let newHp :=
        if event2.type = HealthEventType.damage then
          max 0 (player.currentHp - v)
        else if event2.type = HealthEventType.healing then
          min player.maxHp (player.currentHp + v)
        else player.currentHp
      { event := event2, playerWrite := some newHp,
        emission := some (event.playerId, newHp) }
    | none => { event := event2, playerWrite := none, emission := none }
  else { event := event2, playerWrite := none, emission := none }

/-- HP of the player after the handler ran: the written value if the handler
wrote one, the previous HP otherwise. -/
def hpAfter (player : Player) (o : HealthConfirmOutcome) : Int :=
  match o.playerWrite with
  | some h => h
  | none => player.currentHp

/-- Embeds the health-event creation of the extraction path
(websocket/index.ts lines 343-354): the row is created with
`confirmed: false` and the player row is untouched. -/
def createPendingHealthEvent (eid : String) (player : Player)
    (t : HealthEventType) (value : Option Int) :
    HealthEvent × Player :=
  (⟨eid, player.id, t, value, false⟩, player)

/-- C6: a player's HP is mutated only by a confirmed `health:confirm` with a
non-null value: rejection (`confirmed = false`) writes no HP; a null stored
value writes no HP; a confirmed damage event yields `max(0, hp − value)`; a
confirmed healing event yields `min(maxHp, hp + value)`; and the extraction
path creates health events unconfirmed without touching the player. -/
theorem health_hp_mutation_rules (event : HealthEvent) (player : Player)
    (modifiedValue : Option Int) (eid : String) (t : HealthEventType)
    (v0 : Option Int) :
    ((healthConfirm event player false modifiedValue).playerWrite = none ∧
      hpAfter player (healthConfirm event player false modifiedValue)
        = player.currentHp) ∧
    (resolvedValue event modifiedValue = none →
      (healthConfirm event player true modifiedValue).playerWrite = none ∧
      hpAfter player (healthConfirm event player true modifiedValue)
        = player.currentHp) ∧
    (∀ v : Int, resolvedValue event modifiedValue = some v →
      (event.type = HealthEventType.damage →
        hpAfter player (healthConfirm event player true modifiedValue)
          = max 0 (player.currentHp - v)) ∧
      (event.type = HealthEventType.healing →
        hpAfter player (healthConfirm event player true modifiedValue)
          = min player.maxHp (player.currentHp + v))) ∧
    ((createPendingHealthEvent eid player t v0).1.confirmed = false ∧
      (createPendingHealthEvent eid player t v0).2 = player) := by
  refine ⟨⟨rfl, rfl⟩, fun hnone => ?_, fun v hv => ⟨fun hd => ?_, fun hh => ?_⟩,
    ⟨rfl, rfl⟩⟩
  · unfold healthConfirm
    rw [if_pos rfl]
    dsimp only
    rw [hnone]
    exact ⟨rfl, rfl⟩
  · unfold healthConfirm hpAfter
    rw [if_pos rfl]
    dsimp only
    rw [hv, hd]
    simp
  · unfold healthConfirm hpAfter
    rw [if_pos rfl]
    dsimp only
    rw [hv, hh]
    have : HealthEventType.healing ≠ HealthEventType.damage := by decide
    simp

def c6event : HealthEvent := ⟨"e1", "p1", HealthEventType.damage, some 7, false⟩
def c6player : Player := ⟨"p1", 10, 20⟩

theorem health_hp_mutation_rules_witness :
    resolvedValue c6event none = some 7 ∧
      hpAfter c6player (healthConfirm c6event c6player true none)
        = max 0 (c6player.currentHp - 7) :=
  ⟨by decide,
    ((health_hp_mutation_rules c6event c6player none "e2"
      HealthEventType.damage none).2.2.1 7 (by decide)).1 (by decide)⟩

/-- C10: confirming a `status` health event (confirmed, non-null value) never
changes the player's HP: the handler writes back the player's prior
`currentHp` and the `player:updated` emission carries that unchanged HP. -/
theorem healthConfirm_status_preserves_hp (event : HealthEvent)
    (player : Player) (modifiedValue : Option Int) (v : Int)
    (htype : event.type = HealthEventType.status)
    (hval : resolvedValue event modifiedValue = some v) :
    (healthConfirm event player true modifiedValue).playerWrite
      = some player.currentHp ∧
    (healthConfirm event player true modifiedValue).emission
      = some (event.playerId, player.currentHp) := by
  unfold healthConfirm
  rw [if_pos rfl]
  dsimp only
  rw [hval, htype]
  dsimp only
  have h1 : HealthEventType.status ≠ HealthEventType.damage := by decide
  have h2 : HealthEventType.status ≠ HealthEventType.healing := by decide
  rw [if_neg h1, if_neg h2]
  exact ⟨rfl, rfl⟩

def c10event : HealthEvent :=
  ⟨"e3", "p1", HealthEventType.status, some 3, false⟩

theorem healthConfirm_status_preserves_hp_witness :
    (healthConfirm c10event c6player true none).playerWrite
        = some c6player.currentHp ∧
      (healthConfirm c10event c6player true none).emission
        = some (c10event.playerId, c6player.currentHp) :=
  healthConfirm_status_preserves_hp c10event c6player none 3 (by decide)
    (by decide)

/-! ## Multi-speaker utterance splitting (transcription.ts) -/

/-- One word of a Deepgram alternative: the token text and its diarization
speaker index (`speaker?: number` becomes `Option Nat`; the `start`/`end`
times are never read by `splitBySpeaker`). -/
structure DgWord where
  word : String
  speaker : Option Nat
deriving DecidableEq, Repr

/-- Letter label for a speaker index: `Speaker ` followed by the character
`A + (n % 26)` (transcription.ts lines 240-241 and 275-276). -/
def speakerLabelOf (n : Nat) : String :=
  "Speaker " ++ String.mk [Char.ofNat (65 + n % 26)]

/-- The part of an emitted split segment that `splitBySpeaker` computes from
the word list: its `speakerLabel` and its `text`.  The remaining fields do not
depend on the split (`id` is a fresh uuid, `timestamp` and `confidence` are
the same for every segment of the utterance, `speakerName` is null and
`isEdited` false). -/
structure SplitSegment where
  speakerLabel : String
  text : String
deriving DecidableEq, Repr

/-- JavaScript `words.join(' ')`. -/
def joinSpace : List String → String
  | [] => ""
  | [s] => s
  | s :: rest => s ++ " " ++ joinSpace rest

/-- One emitted segment of `splitBySpeaker`: label from the run's speaker
(`currentSpeaker ?? 0`), text from the run's words joined by single
spaces. -/
def segOfSpeakerWords (sp : Option Nat) (ws : List String) : SplitSegment :=
  ⟨speakerLabelOf (sp.getD 0), joinSpace ws⟩

/-- Embeds the loop of `TranscriptionService.splitBySpeaker` (transcription.ts
lines 263-330): `currentSpeaker`/`currentWords` accumulate the running run; a
word whose speaker differs flushes the accumulated segment; the final segment
is flushed after the loop. -/
def splitGo : List DgWord → Option Nat → List String → List SplitSegment
  | [], currentSpeaker, currentWords =>
    if currentWords ≠ [] then [segOfSpeakerWords currentSpeaker currentWords]
    else []
  | w :: rest, currentSpeaker, currentWords =>
    if w.speaker ≠ currentSpeaker ∧ currentWords ≠ [] then
      segOfSpeakerWords currentSpeaker currentWords ::
        splitGo rest w.speaker [w.word]
    else
      splitGo rest currentSpeaker (currentWords ++ [w.word])

/-- Embeds `TranscriptionService.splitBySpeaker(words, confidence)`:
`currentSpeaker` starts as `words[0]?.speaker`, `currentWords` empty. -/
def TranscriptionService.splitBySpeaker (words : List DgWord) :
    List SplitSegment :=
  match words with
  | [] => splitGo [] none []
  | w :: _ => splitGo words w.speaker []

/-- Maximal contiguous runs of equal speaker index in a word list, in order:
the reference decomposition the splitter is claimed to produce. -/
def speakerRuns : List DgWord → List (List DgWord)
  | [] => []
  | w :: rest =>
    match speakerRuns rest with
    | [] => [[w]]
    | r :: rs =>
      if r.head?.map DgWord.speaker = some w.speaker then (w :: r) :: rs
      else [w] :: r :: rs

/-- Segment a run denotes: its label comes from the speaker of its first word
(all words of a run share it), its text from its words joined by spaces. -/
def segOfRun (r : List DgWord) : SplitSegment :=
  segOfSpeakerWords (r.head?.bind DgWord.speaker) (r.map DgWord.word)

theorem speakerRuns_join (words : List DgWord) :
    (speakerRuns words).flatten = words := by
  induction words with
  | nil => rfl
  | cons w rest ih =>
    simp only [speakerRuns]
    cases hr : speakerRuns rest with
    | nil =>
      rw [hr] at ih
      have hrest : rest = [] := by simpa using ih.symm
      subst hrest
      rfl
    | cons r rs =>
      rw [hr] at ih
      dsimp only
      by_cases hsp : r.head?.map DgWord.speaker = some w.speaker
      · rw [if_pos hsp]
        simp only [List.flatten_cons] at ih ⊢
        rw [List.cons_append, ih]
      · rw [if_neg hsp]
        simp only [List.flatten_cons] at ih ⊢
        rw [List.singleton_append, ih]

theorem splitGo_eq_runs (words : List DgWord) :
    ∀ (sp : Option Nat) (cws : List String), cws ≠ [] →
      splitGo words sp cws =
        match speakerRuns words with
        | [] => [segOfSpeakerWords sp cws]
        | r :: rs =>
          if r.head?.map DgWord.speaker = some sp then
            segOfSpeakerWords sp (cws ++ r.map DgWord.word) :: rs.map segOfRun
          else
            segOfSpeakerWords sp cws :: (r :: rs).map segOfRun := by
  induction words with
  | nil =>
    intro sp cws hc
    simp only [splitGo, if_pos hc, speakerRuns]
  | cons w rest ih =>
    intro sp cws hc
    simp only [splitGo, speakerRuns]
    by_cases hws : w.speaker = sp
    · subst hws
      rw [if_neg (by simp)]
      rw [ih w.speaker (cws ++ [w.word]) (by simp)]
      cases hr : speakerRuns rest with
      | nil =>
        try dsimp only
        rw [if_pos (by simp)]
        rfl
      | cons r rs =>
        try dsimp only
        by_cases hsp : r.head?.map DgWord.speaker = some w.speaker
        · rw [if_pos hsp]
          rw [if_pos hsp]
          try dsimp only
          rw [if_pos (by simp)]
          rw [List.map_cons, List.append_cons cws w.word (List.map DgWord.word r)]
        · rw [if_neg hsp]
          rw [if_neg hsp]
          try dsimp only
          rw [if_pos (by simp)]
          rfl
    · rw [if_pos ⟨hws, hc⟩]
      rw [ih w.speaker [w.word] (by simp)]
      cases hr : speakerRuns rest with
      | nil =>
        try dsimp only
        rw [if_neg (by simp [hws])]
        rfl
      | cons r rs =>
        try dsimp only
        by_cases hsp : r.head?.map DgWord.speaker = some w.speaker
        · rw [if_pos hsp]
          rw [if_pos hsp]
          try dsimp only
          rw [if_neg (by simp [hws])]
          rfl
        · rw [if_neg hsp]
          rw [if_neg hsp]
          try dsimp only
          rw [if_neg (by simp [hws])]
          rfl

theorem splitBySpeaker_eq_runs (words : List DgWord) :
    TranscriptionService.splitBySpeaker words
      = (speakerRuns words).map segOfRun := by
  cases words with
  | nil => rfl
  | cons w rest =>
    show splitGo (w :: rest) w.speaker [] = _
    simp only [splitGo]
    rw [if_neg (by simp)]
    rw [List.nil_append, splitGo_eq_runs rest w.speaker [w.word] (by simp)]
    simp only [speakerRuns]
    cases hr : speakerRuns rest with
    | nil => rfl
    | cons r rs =>
      try dsimp only
      by_cases hsp : r.head?.map DgWord.speaker = some w.speaker
      · rw [if_pos hsp]
        rw [if_pos hsp]
        rfl
      · rw [if_neg hsp]
        rw [if_neg hsp]
        rfl

/-- C9: on an utterance whose word list carries two or more distinct speaker
indices, `splitBySpeaker` emits exactly one segment per maximal contiguous run
of equal speaker index, in run order, each segment labelled by its run's
speaker and its text being the run's words joined by single spaces; and the
runs concatenate back to the utterance's word list exactly, so no word is
lost, duplicated or reordered. -/
theorem splitBySpeaker_splits_runs (words : List DgWord)
    (h2 : ∃ w1 ∈ words, ∃ w2 ∈ words,
      w1.speaker.isSome ∧ w2.speaker.isSome ∧ w1.speaker ≠ w2.speaker) :
    TranscriptionService.splitBySpeaker words
        = (speakerRuns words).map segOfRun ∧
      (speakerRuns words).flatten = words :=
  ⟨splitBySpeaker_eq_runs words, speakerRuns_join words⟩

def c9words : List DgWord :=
  [⟨"hello", some 0⟩, ⟨"there", some 1⟩, ⟨"friend", some 1⟩]

theorem splitBySpeaker_splits_runs_witness :
    TranscriptionService.splitBySpeaker c9words
        = (speakerRuns c9words).map segOfRun ∧
      (speakerRuns c9words).flatten = c9words :=
  splitBySpeaker_splits_runs c9words
    ⟨⟨"hello", some 0⟩, by decide, ⟨"there", some 1⟩, by decide, by decide⟩

/-! ## Auto-audio rate limiting (aiAudioAnalyzer.ts, autoAudioService.ts) -/

/-- Timing state of `AIAudioAnalyzer`: `lastSceneChangeTime` and
`lastEffectTime`, in epoch milliseconds (aiAudioAnalyzer.ts lines 86-87;
`reset()` puts both to 0). -/
structure AnalyzerState where
  lastSceneChangeTime : Int
  lastEffectTime : Int
deriving DecidableEq, Repr

/-- 30000 ms: `minSceneChangeInterval` (aiAudioAnalyzer.ts line 88). -/
def minSceneChangeInterval : Int := 30000

/-- 5000 ms: `minEffectInterval` (aiAudioAnalyzer.ts line 89). -/
def minEffectInterval : Int := 5000

/-- The parts of the parsed model reply that `analyzeForAudio` inspects.
Missing objects and null fields are `none`. -/
structure ParsedSceneChange where
  newScene : Option String
  intensity : Option ℚ
deriving DecidableEq, Repr

structure ParsedSoundEffect where
  kind : Option String
  urgency : Option ℚ
deriving DecidableEq, Repr

structure ParsedSuggestion where
  sceneChange : Option ParsedSceneChange
  soundEffect : Option ParsedSoundEffect
deriving DecidableEq, Repr

/-- JavaScript `x || d` on an optional number: both `undefined` and `0` are
falsy and fall back to the default. -/
def jsOrQ (o : Option ℚ) (d : ℚ) : ℚ :=
  match o with
  | some q => if q = 0 then d else q
  | none => d

/-- The accepted suggestion: scene change (new scene, intensity) and sound
effect (type, urgency); `none` fields were filtered out. -/
structure AudioSuggestionOut where
  sceneChange : Option (String × ℚ)
  soundEffect : Option (String × ℚ)
deriving DecidableEq, Repr

/-- Scene-change acceptance test of `AIAudioAnalyzer.analyzeForAudio`
(aiAudioAnalyzer.ts lines 167-177): the proposed scene must be truthy, differ
from the current scene, and strictly more than 30000 ms must have passed since
the last accepted scene change. -/
def sceneAcceptOf (st : AnalyzerState) (parsed : ParsedSuggestion)
    (currentScene : String) (now : Int) : Option (String × ℚ) :=
  match parsed.sceneChange with
  | some sc =>
    match sc.newScene with
    | some ns =>
      if ns ≠ "" ∧ ns ≠ currentScene ∧
          now - st.lastSceneChangeTime > minSceneChangeInterval then
        some (ns, jsOrQ sc.intensity (mkRat 1 2))
      else none
    | none => none
  | none => none

/-- Sound-effect acceptance test of `AIAudioAnalyzer.analyzeForAudio`
(aiAudioAnalyzer.ts lines 179-191): the proposed effect type must be truthy
and present in `EFFECT_QUERIES` (the oracle `effectKnown`), and strictly more
than 5000 ms must have passed since the last accepted effect. -/
def effectAcceptOf (effectKnown : String → Bool) (st : AnalyzerState)
    (parsed : ParsedSuggestion) (now : Int) : Option (String × ℚ) :=
  match parsed.soundEffect with
  | some se =>
    match se.kind with
    | some ty =>
      if ty ≠ "" ∧ effectKnown ty = true ∧
          now - st.lastEffectTime > minEffectInterval then
        some (ty, jsOrQ se.urgency (mkRat 1 2))
      else none
    | none => none
  | none => none

/-- Embeds the decision logic of `AIAudioAnalyzer.analyzeForAudio`
(aiAudioAnalyzer.ts lines 160-198), after the model reply has been parsed (the
request and JSON parsing are the oracle `parsed`; a failed call yields no
suggestion and no state change and is not modelled further).  An accepted
scene change or effect stamps the corresponding timer with `now`; if neither
is accepted the result is `none`.  (The random draw of the concrete search
query from `EFFECT_QUERIES` is not modelled; the suggestion carries the effect
type.) -/
def AIAudioAnalyzer.analyzeForAudio (effectKnown : String → Bool)
    (st : AnalyzerState) (parsed : ParsedSuggestion) (currentScene : String)
    (now : Int) : Option AudioSuggestionOut × AnalyzerState :=
  let sceneAccept := sceneAcceptOf st parsed currentScene now
  let st1 := if sceneAccept.isSome then
    { st with lastSceneChangeTime := now } else st
  let effectAccept := effectAcceptOf effectKnown st parsed now
  let st2 := if effectAccept.isSome then
    { st1 with lastEffectTime := now } else st1
  if sceneAccept = none ∧ effectAccept = none then (none, st2)
  else (some ⟨sceneAccept, effectAccept⟩, st2)

theorem sceneAcceptOf_elapsed (st : AnalyzerState) (parsed : ParsedSuggestion)
    (currentScene : String) (now : Int) (x : String × ℚ)
    (h : sceneAcceptOf st parsed currentScene now = some x) :
    now - st.lastSceneChangeTime > minSceneChangeInterval := by
  unfold sceneAcceptOf at h
  cases hps : parsed.sceneChange with
  | none => rw [hps] at h; cases h
  | some sc =>
    rw [hps] at h
    dsimp only at h
    cases hns : sc.newScene with
    | none => rw [hns] at h; cases h
    | some ns =>
      rw [hns] at h
      dsimp only at h
      by_cases hc : ns ≠ "" ∧ ns ≠ currentScene ∧
          now - st.lastSceneChangeTime > minSceneChangeInterval
      · exact hc.2.2
      · rw [if_neg hc] at h
        cases h

theorem effectAcceptOf_elapsed (effectKnown : String → Bool)
    (st : AnalyzerState) (parsed : ParsedSuggestion) (now : Int)
    (x : String × ℚ)
    (h : effectAcceptOf effectKnown st parsed now = some x) :
    now - st.lastEffectTime > minEffectInterval := by
  unfold effectAcceptOf at h
  cases hps : parsed.soundEffect with
  | none => rw [hps] at h; cases h
  | some se =>
    rw [hps] at h
    dsimp only at h
    cases hty : se.kind with
    | none => rw [hty] at h; cases h
    | some ty =>
      rw [hty] at h
      dsimp only at h
      by_cases hc : ty ≠ "" ∧ effectKnown ty = true ∧
          now - st.lastEffectTime > minEffectInterval
      · exact hc.2.2
      · rw [if_neg hc] at h
        cases h

/-- Embeds `AutoAudioSettings` (autoAudioService.ts lines 6-11). -/
structure AutoAudioSettings where
  enabled : Bool
  effectFrequency : ℚ
  musicEnabled : Bool
  effectsEnabled : Bool
deriving DecidableEq, Repr

/-- State of the `AutoAudioService` director read by `handleSceneChange`;
`apiConfigured` is the oracle for `isAnyApiConfigured()`. -/
structure AutoAudioState where
  settings : AutoAudioSettings
  currentScene : String
  currentIntensity : ℚ
  apiConfigured : Bool
deriving DecidableEq, Repr

/-- Embeds `AutoAudioService.handleSceneChange(scene, confidence)`
(autoAudioService.ts lines 135-146): guards on settings, API configuration,
confidence ≥ 0.6 and scene ≠ current — and nothing else, in particular no
elapsed-time check — then changes the director's scene and plays music.
Returns the new state and whether the change was accepted. -/
def AutoAudioService.handleSceneChange (st : AutoAudioState) (scene : String)
    (confidence : ℚ) : AutoAudioState × Bool :=
  if !st.settings.enabled || !st.settings.musicEnabled then (st, false)
  else if !st.apiConfigured then (st, false)
  else if confidence < mkRat 6 10 then (st, false)
  else if scene = st.currentScene then (st, false)
  else ({ st with currentScene := scene, currentIntensity := confidence },
    true)

/-- One timed run of external scene-change notifications: each call carries
the wall-clock instant at which it arrives; the handler itself never reads the
clock. -/
def runTimedSceneChanges (st : AutoAudioState) :
    List (Int × String × ℚ) → List (Int × Bool)
  | [] => []
  | (t, sc, conf) :: rest =>
    ((t, (AutoAudioService.handleSceneChange st sc conf).2)) ::
      runTimedSceneChanges (AutoAudioService.handleSceneChange st sc conf).1
        rest

def c7State : AutoAudioState :=
  ⟨⟨true, mkRat 50 1, true, true⟩, "ambient", mkRat 1 2, true⟩

/-- C7 counterexample: on the externally detected scene-change path the
director accepts two scene changes 1000 ms apart (well under 30 seconds).
`AutoAudioService.handleSceneChange` performs no rate-limit check at all: its
acceptance is independent of elapsed time, so the 30-second rule quantified
over every scene-changing path is false. -/
theorem external_scene_changes_not_rate_limited :
    runTimedSceneChanges c7State
        [(0, "forest", mkRat 9 10), (1000, "dungeon", mkRat 9 10)] =
      [(0, true), (1000, true)] ∧ (1000 : Int) - 0 < 30000 := by
  constructor
  · decide
  · decide

/-- C7 amended: the 30-second and 5-second rate limits are enforced only
inside `AIAudioAnalyzer.analyzeForAudio`: whenever it accepts a scene-change
suggestion, strictly more than 30000 ms have elapsed since
`lastSceneChangeTime`, and whenever it accepts an effect suggestion, strictly
more than 5000 ms have elapsed since `lastEffectTime` — independently of the
effect-frequency setting, which this decision never reads.  The externally
detected scene-change path (`AutoAudioService.handleSceneChange`) enforces no
time-based limit (see the counterexample). -/
theorem analyzeForAudio_rate_limited (effectKnown : String → Bool)
    (st : AnalyzerState) (parsed : ParsedSuggestion) (currentScene : String)
    (now : Int) (out : AudioSuggestionOut)
    (hout : (AIAudioAnalyzer.analyzeForAudio effectKnown st parsed
      currentScene now).1 = some out) :
    (out.sceneChange.isSome = true →
      now - st.lastSceneChangeTime > minSceneChangeInterval) ∧
    (out.soundEffect.isSome = true →
      now - st.lastEffectTime > minEffectInterval) := by
  unfold AIAudioAnalyzer.analyzeForAudio at hout
  dsimp only at hout
  by_cases hb : sceneAcceptOf st parsed currentScene now = none ∧
      effectAcceptOf effectKnown st parsed now = none
  · rw [if_pos hb] at hout
    cases hout
  · rw [if_neg hb] at hout
    have hout2 : out = ⟨sceneAcceptOf st parsed currentScene now,
        effectAcceptOf effectKnown st parsed now⟩ :=
      (Option.some.inj hout).symm
    subst hout2
    constructor
    · intro hsc
      obtain ⟨x, hx⟩ := Option.isSome_iff_exists.mp hsc
      exact sceneAcceptOf_elapsed st parsed currentScene now x hx
    · intro hse
      obtain ⟨x, hx⟩ := Option.isSome_iff_exists.mp hse
      exact effectAcceptOf_elapsed effectKnown st parsed now x hx

def c7Parsed : ParsedSuggestion :=
  ⟨some ⟨some "combat", some (mkRat 8 10)⟩, none⟩

theorem analyzeForAudio_rate_limited_witness :
    ((AIAudioAnalyzer.analyzeForAudio (fun _ => true) ⟨0, 0⟩ c7Parsed
        "ambient" 40000).1 = some ⟨some ("combat", mkRat 8 10), none⟩) ∧
      ((some ("combat", mkRat 8 10) : Option (String × ℚ)).isSome = true →
        (40000 : Int) - 0 > minSceneChangeInterval) :=
  ⟨by decide,
    (analyzeForAudio_rate_limited (fun _ => true) ⟨0, 0⟩ c7Parsed "ambient"
      40000 ⟨some ("combat", mkRat 8 10), none⟩ (by decide)).1⟩
